import Mathlib

/-!
# Verification of `sanity-convert-ids-to-slugs`

Shallow embedding of the core logic of `src/ConvertIdsToSlugs.tsx`:
the slug generator (`generateSlug`, lines 70-86), the document scanner
(`scanForDocuments`, lines 88-136) and the conversion pipeline
(`convertToSlugs`, lines 138-215).

Strings are modelled as Lean `String`/`List Char`; JavaScript character
classes (`\w`, `\s`) and `toLowerCase`/`trim` are modelled over their
ASCII behaviour (plus NBSP for `\s`), which is the fragment the
program's regexes rely on.  The external Sanity store is modelled as a
list of documents for queries whose GROQ shape is fixed by the code,
and as per-document oracle responses (`Except`) for the pipeline's
probe and patch calls, so that store failures -- which the code
catches per document -- are explicit inputs.
-/

/-! ## Character classes (JS regex semantics, ASCII fragment) -/

/-- JS `\s` (restricted to the ASCII range plus NBSP): space, tab,
newline, carriage return, vertical tab, form feed, no-break space. -/
def jsSpace (c : Char) : Bool :=
  c.toNat == 32 || c.toNat == 9 || c.toNat == 10 || c.toNat == 13 ||
  c.toNat == 11 || c.toNat == 12 || c.toNat == 160

/-- JS `\w`: ASCII letters, digits and underscore. -/
def wordChar (c : Char) : Bool :=
  (65 ≤ c.toNat && c.toNat ≤ 90) || (97 ≤ c.toNat && c.toNat ≤ 122) ||
  (48 ≤ c.toNat && c.toNat ≤ 57) || c.toNat == 95

/-- The class `[\s_-]` collapsed to a hyphen by `generateSlug`. -/
def sepChar (c : Char) : Bool :=
  jsSpace c || c.toNat == 95 || c.toNat == 45

/-- The class `[\w\s-]` kept by `generateSlug`'s first `replace`
(everything else -- "special characters" -- is removed). -/
def allowedChar (c : Char) : Bool :=
  wordChar c || jsSpace c || c.toNat == 45

/-- Lowercase ASCII letter or digit: the characters other than `-`
that may appear in a well-formed slug. -/
def lowerAlnum (c : Char) : Bool :=
  (97 ≤ c.toNat && c.toNat ≤ 122) || (48 ≤ c.toNat && c.toNat ≤ 57)

/-- JS `String.prototype.toLowerCase` on the ASCII fragment:
`'A'..'Z'` shift by 32, everything else unchanged (identical to
`Char.toLower` in core). -/
def jsToLower (c : Char) : Char :=
  if 65 ≤ c.toNat ∧ c.toNat ≤ 90 then Char.ofNat (c.toNat + 32) else c

/-! ## List plumbing for the generator's `trim` and `replace` steps -/

/-- Remove a trailing run of characters satisfying `p` (the `-+$` /
trailing-whitespace part of the generator's regexes). -/
def dropTrailingIf (p : Char → Bool) : List Char → List Char
  | [] => []
  | c :: cs =>
    match dropTrailingIf p cs with
    | [] => if p c then [] else [c]
    | rest => c :: rest

/-- JS `String.prototype.trim`: strip whitespace from both ends. -/
def trimWs (l : List Char) : List Char :=
  dropTrailingIf jsSpace (l.dropWhile jsSpace)

/-- `replace(/[\s_-]+/g, '-')`: collapse each maximal run of
separator characters into a single hyphen.  A separator whose
successor is also a separator is dropped; the last separator of a run
becomes the hyphen. -/
def collapseSeps : List Char → List Char
  | [] => []
  | [c] => if sepChar c then ['-'] else [c]
  | c :: d :: rest =>
    if sepChar c && sepChar d then collapseSeps (d :: rest)
    else (if sepChar c then '-' else c) :: collapseSeps (d :: rest)

/-- `replace(/^-+|-+$/g, '')`: strip the leading and trailing runs of
hyphens. -/
def stripHyphens (l : List Char) : List Char :=
  dropTrailingIf (fun c => c == '-') (l.dropWhile (fun c => c == '-'))

/-- The normalization part of `generateSlug` (lines 74-79): lowercase,
trim, remove special characters, collapse separators, strip outer
hyphens. -/
def slugCore (text : List Char) : List Char :=
  stripHyphens (collapseSeps ((trimWs (text.map jsToLower)).filter allowedChar))

/-- `generateSlug` (lines 70-86) on character lists.  `pre` and `suf`
are the component's `slugPrefix` and `slugSuffix` configuration
values; a non-empty (JS-truthy) one is attached with a hyphen. -/
def generateSlugL (pre suf text : List Char) : List Char :=
  if text = [] then []
  else
    let slug := slugCore text
    let slug := if pre = [] then slug else pre ++ '-' :: slug
    if suf = [] then slug else slug ++ '-' :: suf

/-- `generateSlug` on `String`, the form the component calls. -/
def generateSlug (pre suf text : String) : String :=
  ⟨generateSlugL pre.data suf.data text.data⟩

/-! ## The slug well-formedness predicate (claim C1's property) -/

/-- No two adjacent hyphens. -/
def noDoubleHyphen : List Char → Bool
  | c :: d :: rest => !(c == '-' && d == '-') && noDoubleHyphen (d :: rest)
  | _ => true

/-- A well-formed slug: only lowercase ASCII letters, digits and
hyphens; no two adjacent hyphens; no leading or trailing hyphen. -/
def validSlugL (l : List Char) : Bool :=
  l.all (fun c => lowerAlnum c || c == '-') && noDoubleHyphen l &&
  !(l.head? == some '-') && !(l.getLast? == some '-')

/-- Slug well-formedness on `String`. -/
def validSlug (s : String) : Bool := validSlugL s.data

/-! ## Documents and the scanner (`scanForDocuments`, lines 88-136)

A scanned document is modelled through the five accesses the code
performs on it: `_id`, `_type`, `title`, `name`, `doc[sourceField]`
(the configured source field, resolved here as `source`) and
`doc[slugField]` (resolved as `slugAttr`).  `slugAttr = none` means
the slug field is absent, `some none` an object without a `current`
string, `some (some s)` a `current` value `s`. -/

structure SDoc where
  id : String
  type : String
  title : Option String
  name : Option String
  source : Option String
  slugAttr : Option (Option String)
  deriving DecidableEq, Repr

/-- JS truthiness of a string-or-undefined value. -/
def truthyOpt : Option String → Bool
  | none => false
  | some s => !(s == "")

/-- The scanner's configuration: the form state `scanForDocuments`
reads, plus the `maxDocuments` prop. -/
structure ScanConfig where
  selectedType : String
  searchQuery : String
  useCustomQuery : Bool
  customGroqQuery : String
  maxDocuments : Nat
  replaceExisting : Bool
  deriving Repr

/-- `_type == "<selectedType>"`, or `defined(_type)` (always true in
the model, every document has a type) when no type is selected. -/
def matchesType (cfg : ScanConfig) (d : SDoc) : Bool :=
  if cfg.selectedType == "" then true else d.type == cfg.selectedType

/-- `needle` occurs at the head of `hay`. -/
def leadsWith : List Char → List Char → Bool
  | [], _ => true
  | _ :: _, [] => false
  | a :: as, b :: bs => a == b && leadsWith as bs

/-- `needle` occurs somewhere in `hay` (substring test). -/
def hasSub (needle hay : List Char) : Bool :=
  match hay with
  | [] => needle.isEmpty
  | _ :: rest => leadsWith needle hay || hasSub needle rest

/-- The optional search constraint
`title match "*q*" || name match "*q*"`, modelled as the
substring-style match the spec describes, applied only when a search
query was entered. -/
def matchesSearch (cfg : ScanConfig) (d : SDoc) : Bool :=
  if cfg.searchQuery == "" then true
  else hasSub cfg.searchQuery.data (d.title.getD "").data ||
       hasSub cfg.searchQuery.data (d.name.getD "").data

/-- The structured GROQ query of lines 100-108:
`*[typeFilter && searchFilter][0...maxDocuments] {projection}`,
evaluated against a store modelled as a list of documents (filter,
then slice; the projection keeps exactly the fields `SDoc` has). -/
def structuredScan (cfg : ScanConfig) (store : List SDoc) : List SDoc :=
  (store.filter (fun d => matchesType cfg d && matchesSearch cfg d)).take
    cfg.maxDocuments

/-- The fetch of lines 95-111: a custom GROQ query is passed to the
store verbatim when `useCustomQuery` is set and the query text is
non-empty (JS truthiness), otherwise the structured query runs.  The
verbatim query is opaque to the model, so its result is an oracle
`rawFetch` from query text to result list. -/
def scanFetch (cfg : ScanConfig) (store : List SDoc)
    (rawFetch : String → List SDoc) : List SDoc :=
  if cfg.useCustomQuery && !(cfg.customGroqQuery == "") then
    rawFetch cfg.customGroqQuery
  else structuredScan cfg store

/-- The classification of lines 115-124: `hasSlug` is the JS
truthiness of `doc[slugField]?.current`, `hasSource` that of
`doc[sourceField] || doc.title || doc.name`. -/
def needsConversion (cfg : ScanConfig) (d : SDoc) : Bool :=
  let hasSlug :=
    match d.slugAttr with
    | some (some s) => !(s == "")
    | _ => false
  let hasSource := truthyOpt d.source || truthyOpt d.title || truthyOpt d.name
  if cfg.replaceExisting then hasSource else hasSource && !hasSlug

/-- `scanForDocuments` (lines 88-136): fetch, then keep the documents
that need conversion. -/
def scanForDocuments (cfg : ScanConfig) (store : List SDoc)
    (rawFetch : String → List SDoc) : List SDoc :=
  (scanFetch cfg store rawFetch).filter (needsConversion cfg)

/-! Spec-side predicates for claim C2, written from the claim's words
("has non-empty source text" / "slug attribute's current value is
absent/empty") rather than from the code, for comparison. -/

/-- The claim's "has non-empty source text (the configured source
field, or a title field, or a name field)". -/
def hasSourceText (d : SDoc) : Bool :=
  truthyOpt d.source || truthyOpt d.title || truthyOpt d.name

/-- The claim's "its slug attribute's current value is present and
non-empty" (negation of "absent/empty"). -/
def hasNonEmptySlug (d : SDoc) : Bool :=
  match d.slugAttr with
  | some (some s) => !(s == "")
  | _ => false

/-! ## The uniqueness probe (`convertToSlugs`, lines 163-173)

The probe is the GROQ query
`*[_type == "<doc._type>" && <slugField>.current == $slug && _id != $id][0]`,
modelled against a list-of-documents store: filter, then first
element. -/

/-- Whether a store document's slug attribute has `current` equal to
`slug` (GROQ `<slugField>.current == $slug`; an absent field or
absent `current` compares unequal to a string). -/
def slugCurEq (d : SDoc) (slug : String) : Bool :=
  match d.slugAttr with
  | some (some s) => s == slug
  | _ => false

/-- The probe query of lines 164-167. -/
def probeCollision (store : List SDoc) (docType docId slug : String) :
    Option SDoc :=
  (store.filter
    (fun e => e.type == docType && slugCurEq e slug && e.id != docId)).head?

/-- Lines 169-173: on a collision append `-` and the time token
(`Date.now()`, modelled as the natural `now`), otherwise keep the
candidate slug. -/
def finalSlugFor (store : List SDoc) (docType docId newSlug : String)
    (now : Nat) : String :=
  match probeCollision store docType docId newSlug with
  | some _ => newSlug ++ "-" ++ toString now
  | none => newSlug

/-! ## The conversion pipeline (`convertToSlugs`, lines 138-215)

Two complementary store models are used for the pipeline.

In the first (this section), each candidate document carries, besides
the fields the loop body reads, the store's responses to the two
awaited calls made for it: `probe` is the uniqueness-probe fetch
(`.ok b` with `b` the JS truthiness of `existingDoc`, or `.error m`
when the fetch throws) and `patchRes` the
`patch(...).set(...).commit()` call; `now` is the value `Date.now()`
would return for it.  Modelling the store's behaviour as per-document
data makes the `try`/`catch` of lines 153-193 explicit (an `.error`
is a thrown exception), and is adequate for properties of a single
run with its observed store behaviour.  The responses are fixed
inputs, so this model cannot compare two runs whose store traffic
differs -- in particular a dry run against a non-dry run, where the
non-dry run's earlier patch commits feed its later uniqueness probes.
That comparison uses the second, store-backed model
(`convertToSlugsStore` below), in which the probe is evaluated
against the current store contents and the patch updates them. -/

deriving instance DecidableEq for Except

structure DocCase where
  id : String
  source : Option String
  title : Option String
  name : Option String
  probe : Except String Bool
  patchRes : Except String Unit
  now : Nat
  deriving DecidableEq, Repr

/-- The pipeline's configuration: `batchSize` and `dryRun` props plus
the slug prefix/suffix form values consumed via `generateSlug`
(the source's `slugPrefix` and `slugSuffix`; shortened names). -/
structure Config where
  batchSize : Nat
  dryRun : Bool
  slugPre : String
  slugSuf : String
  deriving Repr

/-- JS `a || b || c || dflt` over string-or-undefined values: the
first truthy value, else the default (line 155's
`doc[sourceField] || doc.title || doc.name || doc._id`). -/
def firstTruthy (xs : List (Option String)) (dflt : String) : String :=
  match xs with
  | [] => dflt
  | x :: rest => match x with
    | some s => if s == "" then firstTruthy rest dflt else s
    | none => firstTruthy rest dflt

/-- What one document's processing produced. -/
inductive DocOutcome where
  | converted (finalSlug : String)
  | noSource
  | failed (msg : String)
  deriving DecidableEq, Repr

/-- The body of the per-document `try` (lines 153-189): resolve the
source text, generate the slug, bail out on an empty slug, probe,
disambiguate, and (unless dry-run) patch.  Returns the outcome
together with the list of patch commits attempted against the store
(document id and written slug). -/
def processDoc (c : Config) (d : DocCase) : DocOutcome × List (String × String) :=
  let sourceText := firstTruthy [d.source, d.title, d.name] d.id
  let newSlug := generateSlug c.slugPre c.slugSuf sourceText
  if newSlug == "" then (.noSource, [])
  else
    match d.probe with
    | .error m => (.failed m, [])
    | .ok collision =>
      let finalSlug := if collision then newSlug ++ "-" ++ toString d.now else newSlug
      if c.dryRun then (.converted finalSlug, [])
      else
        match d.patchRes with
        | .error m => (.failed m, [(d.id, finalSlug)])
        | .ok _ => (.converted finalSlug, [(d.id, finalSlug)])

/-- The run's accumulated state: the report fields (`converted`,
`errors`, `slugsGenerated` of lines 145-147) plus two observation
logs: the patch commits issued against the store and the progress
notifications (cumulative converted count, total candidates) emitted
after each batch (line 196). -/
structure RunState where
  converted : Nat
  errors : List String
  slugsGenerated : List String
  patches : List (String × String)
  progress : List (Nat × Nat)
  deriving Repr

/-- The error message of line 159. -/
def noSourceMsg (id : String) : String :=
  "Failed to generate slug for " ++ id ++ ": no source text found"

/-- The error message of line 192. -/
def failMsg (id msg : String) : String :=
  "Failed to convert " ++ id ++ ": " ++ msg

/-- One iteration of the inner loop (lines 152-194): run the `try`
body and fold its outcome into the accumulators (`catch` pushes the
error message; success increments `converted` and pushes the slug). -/
def stepDoc (c : Config) (acc : RunState) (d : DocCase) : RunState :=
  match processDoc c d with
  | (.noSource, ps) =>
    { acc with errors := acc.errors ++ [noSourceMsg d.id],
               patches := acc.patches ++ ps }
  | (.failed m, ps) =>
    { acc with errors := acc.errors ++ [failMsg d.id m],
               patches := acc.patches ++ ps }
  | (.converted s, ps) =>
    { acc with converted := acc.converted + 1,
               slugsGenerated := acc.slugsGenerated ++ [s],
               patches := acc.patches ++ ps }

/-- The chunking of line 149-150 (`for i += batchSize; slice`).  The
JS loop does not terminate for `batchSize = 0`; the model returns the
whole list as one chunk in that degenerate case. -/
def chunksBy (n : Nat) : List α → List (List α)
  | [] => []
  | l@(_ :: _) =>
    if n = 0 then [l] else l.take n :: chunksBy n (l.drop n)
termination_by l => l.length
decreasing_by simp_all [List.length_drop]; omega

/-- The outer loop: fold each chunk, then emit a progress
notification with the cumulative converted count and the total
candidate count (line 196's status message). -/
def runChunks (c : Config) (total : Nat) :
    List (List DocCase) → RunState → RunState
  | [], acc => acc
  | chunk :: rest, acc =>
    let acc1 := chunk.foldl (stepDoc c) acc
    runChunks c total rest
      { acc1 with progress := acc1.progress ++ [(acc1.converted, total)] }

/-- The initial accumulators of lines 145-147. -/
def initState : RunState := ⟨0, [], [], [], []⟩

/-- `convertToSlugs` (lines 138-215): chunk the candidate list and
process it, producing the final report plus observation logs. -/
def convertToSlugs (c : Config) (docs : List DocCase) : RunState :=
  runChunks c docs.length (chunksBy c.batchSize docs) initState

/-! Per-document projections of `processDoc`, used to state what each
document contributes to the report. -/

/-- The error entries one document contributes. -/
def docErr (c : Config) (d : DocCase) : List String :=
  match (processDoc c d).1 with
  | .converted _ => []
  | .noSource => [noSourceMsg d.id]
  | .failed m => [failMsg d.id m]

/-- The `slugsGenerated` entries one document contributes. -/
def docSlugs (c : Config) (d : DocCase) : List String :=
  match (processDoc c d).1 with
  | .converted s => [s]
  | _ => []

/-- The amount one document adds to `converted`. -/
def docConv (c : Config) (d : DocCase) : Nat :=
  match (processDoc c d).1 with
  | .converted _ => 1
  | _ => 0

/-- The patch commits one document issues. -/
def docPatches (c : Config) (d : DocCase) : List (String × String) :=
  (processDoc c d).2

/-! ## Helper lemmas: the conversion pipeline -/

/-- Sum of `f` over a list. -/
def sumBy (f : α → Nat) : List α → Nat
  | [] => 0
  | x :: xs => f x + sumBy f xs

/-- Concatenation of `f` over a list. -/
def catBy (f : α → List β) : List α → List β
  | [] => []
  | x :: xs => f x ++ catBy f xs

/-- Spec-side reading of "the slug attribute's current value": the
`current` string when one is present. -/
def slugCurrent (d : SDoc) : Option String :=
  match d.slugAttr with
  | some (some s) => some s
  | _ => none

/-! ## The store-backed pipeline model

The second model of `convertToSlugs` (lines 138-215), used for the
dry-run comparison: here the store is explicit list-of-documents
state.  The uniqueness probe of lines 164-167 is evaluated against
the *current* store contents, and the patch of lines 176-184 writes
the slug attribute back into the store, so a commit made for an
earlier candidate is seen by a later candidate's probe -- the
feedback behind the spec's section-8 collision scenario.  Every fetch
and patch succeeds in this model (store failures are the first
model's subject).  Candidates are the scanner's documents paired with
the `Date.now()` value of their disambiguation step. -/

/-- A dry-run configuration with the default batch size. -/
def cwDry : Config := ⟨10, true, "", ""⟩

/-- The same configuration without dry-run. -/
def cwWet : Config := ⟨10, false, "", ""⟩

/-- A document whose uniqueness probe throws. -/
def dProbeFail : DocCase := ⟨"b", some "x", none, none, .error "boom", .ok (), 0⟩

/-- A document that converts cleanly. -/
def dOkDoc : DocCase := ⟨"a", some "y", none, none, .ok false, .ok (), 0⟩

/-- A store document already holding slug "post". -/
def sdColl : SDoc := ⟨"other", "post", none, none, none, some (some "post")⟩

/-- A plain store document with a title and no slug. -/
def sd0 : SDoc := ⟨"a", "post", some "T", none, some "T", none⟩

/-- A scan configuration using a non-empty custom query and cap 0. -/
def cfg6cust : ScanConfig := ⟨"", "", true, "q", 0, false⟩

/-- A structured scan configuration with cap 3. -/
def cfg6struct : ScanConfig := ⟨"", "", false, "", 3, false⟩

/-- Custom query enabled but the query text empty. -/
def cfg10e : ScanConfig := ⟨"", "", true, "", 5, false⟩

/-! ### Sanity checks: the spec's concrete test vectors (section 8) -/

theorem generateSlug_hello_world :
    generateSlug "" "" "Hello, World!" = "hello-world" := by decide

theorem generateSlug_spaces_underscores :
    generateSlug "" "" "  Multiple   Spaces--and__Underscores  " =
      "multiple-spaces-and-underscores" := by decide

theorem generateSlug_with_affixes :
    generateSlug "blog" "" "Title" = "blog-title" ∧
    generateSlug "" "v2" "Title" = "title-v2" := by decide

/-! ## Helper lemmas: characters -/

theorem toNat_ofNat_char {n : Nat} (h : n < 55296) : (Char.ofNat n).toNat = n := by
  have hv : n.isValidChar := Or.inl h
  rw [Char.ofNat, dif_pos hv]
  simp [Char.ofNatAux, Char.toNat, UInt32.toNat]

theorem jsToLower_toNat (c : Char) :
    (jsToLower c).toNat =
      if 65 ≤ c.toNat ∧ c.toNat ≤ 90 then c.toNat + 32 else c.toNat := by
  by_cases h : 65 ≤ c.toNat ∧ c.toNat ≤ 90
  · simp only [jsToLower, if_pos h]
    exact toNat_ofNat_char (by omega)
  · simp only [jsToLower, if_neg h]

theorem jsToLower_not_upper (c : Char) :
    ¬(65 ≤ (jsToLower c).toNat ∧ (jsToLower c).toNat ≤ 90) := by
  rw [jsToLower_toNat]
  by_cases h : 65 ≤ c.toNat ∧ c.toNat ≤ 90
  · rw [if_pos h]; omega
  · rw [if_neg h]; omega

/-- A character produced by `jsToLower` that survives both `replace`
steps (it is in `[\w\s-]` but not in `[\s_-]`) is a lowercase letter
or a digit. -/
theorem lowerAlnum_of_image (a : Char)
    (hall : allowedChar (jsToLower a) = true)
    (hsep : sepChar (jsToLower a) = false) :
    lowerAlnum (jsToLower a) = true := by
  have hnu := jsToLower_not_upper a
  simp only [allowedChar, wordChar, jsSpace, sepChar, lowerAlnum,
    Bool.or_eq_true, Bool.and_eq_true, decide_eq_true_eq, beq_iff_eq,
    Bool.or_eq_false_iff, beq_eq_false_iff_ne, ne_eq] at hall hsep ⊢
  omega

theorem ne_hyphen_of_not_sep {c : Char} (h : sepChar c = false) : c ≠ '-' := by
  intro hc
  rw [hc] at h
  exact absurd h (by decide)

theorem lowerAlnum_not_sep {c : Char} (h : lowerAlnum c = true) :
    sepChar c = false := by
  simp only [lowerAlnum, sepChar, jsSpace, Bool.or_eq_true, Bool.and_eq_true,
    decide_eq_true_eq, beq_iff_eq, Bool.or_eq_false_iff, beq_eq_false_iff_ne,
    ne_eq] at h ⊢
  omega

theorem lowerAlnum_allowed {c : Char} (h : lowerAlnum c = true) :
    allowedChar c = true := by
  simp only [lowerAlnum, allowedChar, wordChar, jsSpace, Bool.or_eq_true,
    Bool.and_eq_true, decide_eq_true_eq, beq_iff_eq] at h ⊢
  omega

theorem lowerAlnum_not_space {c : Char} (h : lowerAlnum c = true) :
    jsSpace c = false := by
  simp only [lowerAlnum, jsSpace, Bool.or_eq_true, Bool.and_eq_true,
    decide_eq_true_eq, beq_iff_eq, Bool.or_eq_false_iff,
    beq_eq_false_iff_ne, ne_eq] at h ⊢
  omega

theorem jsToLower_fix {c : Char} (h : lowerAlnum c = true ∨ c = '-') :
    jsToLower c = c := by
  rcases h with h | rfl
  · simp only [lowerAlnum, Bool.or_eq_true, Bool.and_eq_true,
      decide_eq_true_eq] at h
    unfold jsToLower
    rw [if_neg (by omega)]
  · decide

/-! ## Helper lemmas: `dropWhile`, `dropTrailingIf` -/

theorem mem_of_mem_dropWhile {p : Char → Bool} {l : List Char} {c : Char}
    (h : c ∈ l.dropWhile p) : c ∈ l := by
  induction l with
  | nil => simp at h
  | cons a as ih =>
    rw [List.dropWhile_cons] at h
    by_cases hp : p a
    · rw [if_pos hp] at h
      exact List.mem_cons_of_mem _ (ih h)
    · rw [if_neg hp] at h
      exact h

theorem head?_dropWhile_not {p : Char → Bool} {l : List Char} {c : Char}
    (h : (l.dropWhile p).head? = some c) : p c = false := by
  induction l with
  | nil => simp at h
  | cons a as ih =>
    rw [List.dropWhile_cons] at h
    by_cases hp : p a
    · rw [if_pos hp] at h
      exact ih h
    · rw [if_neg hp] at h
      simp only [List.head?_cons, Option.some.injEq] at h
      subst h
      exact Bool.eq_false_iff.2 hp

theorem dropWhile_eq_self_of_head {p : Char → Bool} {l : List Char}
    (h : ∀ c, l.head? = some c → p c = false) : l.dropWhile p = l := by
  cases l with
  | nil => rfl
  | cons a as =>
    rw [List.dropWhile_cons, if_neg]
    simp [h a rfl]

theorem mem_of_mem_dropTrailingIf {p : Char → Bool} {l : List Char} {c : Char}
    (h : c ∈ dropTrailingIf p l) : c ∈ l := by
  induction l with
  | nil => simp [dropTrailingIf] at h
  | cons a as ih =>
    unfold dropTrailingIf at h
    cases hrec : dropTrailingIf p as with
    | nil =>
      rw [hrec] at h
      by_cases hp : p a
      · simp [hp] at h
      · simp [hp] at h
        simp [h]
    | cons r rs =>
      rw [hrec] at h
      rcases List.mem_cons.1 h with rfl | h2
      · exact List.mem_cons_self _ _
      · exact List.mem_cons_of_mem _ (ih (by rw [hrec]; exact h2))

theorem head?_dropTrailingIf {p : Char → Bool} {l : List Char}
    (h : dropTrailingIf p l ≠ []) :
    (dropTrailingIf p l).head? = l.head? := by
  cases l with
  | nil => rfl
  | cons a as =>
    unfold dropTrailingIf
    cases hrec : dropTrailingIf p as with
    | nil =>
      by_cases hp : p a
      · exfalso
        apply h
        unfold dropTrailingIf
        rw [hrec]
        simp [hp]
      · simp [hp]
    | cons r rs => rfl

theorem getLast?_dropTrailingIf_not {p : Char → Bool} {l : List Char} {c : Char}
    (h : (dropTrailingIf p l).getLast? = some c) : p c = false := by
  induction l with
  | nil => simp [dropTrailingIf] at h
  | cons a as ih =>
    unfold dropTrailingIf at h
    cases hrec : dropTrailingIf p as with
    | nil =>
      rw [hrec] at h
      by_cases hp : p a
      · rw [if_pos hp] at h
        simp at h
      · rw [if_neg hp] at h
        simp only [List.getLast?_singleton, Option.some.injEq] at h
        subst h
        exact Bool.eq_false_iff.2 hp
    | cons r rs =>
      rw [hrec, List.getLast?_cons_cons] at h
      exact ih (hrec ▸ h)

theorem dropTrailingIf_eq_self_of_getLast {p : Char → Bool} {l : List Char}
    (h : ∀ c, l.getLast? = some c → p c = false) : dropTrailingIf p l = l := by
  induction l with
  | nil => rfl
  | cons a as ih =>
    unfold dropTrailingIf
    cases as with
    | nil =>
      simp only [dropTrailingIf]
      rw [if_neg]
      simp [h a rfl]
    | cons b bs =>
      have hih : dropTrailingIf p (b :: bs) = b :: bs := by
        apply ih
        intro c hc
        exact h c (by rw [List.getLast?_cons_cons, hc])
      rw [hih]

theorem dropTrailingIf_eq_self_of_all {p : Char → Bool} {l : List Char}
    (h : ∀ c ∈ l, p c = false) : dropTrailingIf p l = l := by
  apply dropTrailingIf_eq_self_of_getLast
  intro c hc
  exact h c (List.mem_of_getLast?_eq_some hc)

/-! ## Helper lemmas: `collapseSeps` and `noDoubleHyphen` -/

theorem noDoubleHyphen_cons_cons {c d : Char} {rest : List Char} :
    noDoubleHyphen (c :: d :: rest) =
      (!(c == '-' && d == '-') && noDoubleHyphen (d :: rest)) := rfl

theorem noDoubleHyphen_tail {c : Char} {l : List Char}
    (h : noDoubleHyphen (c :: l) = true) : noDoubleHyphen l = true := by
  cases l with
  | nil => rfl
  | cons d rest =>
    rw [noDoubleHyphen_cons_cons, Bool.and_eq_true] at h
    exact h.2

theorem noDoubleHyphen_cons_of_ne {c : Char} {l : List Char} (hc : c ≠ '-')
    (h : noDoubleHyphen l = true) : noDoubleHyphen (c :: l) = true := by
  cases l with
  | nil => rfl
  | cons d rest =>
    rw [noDoubleHyphen_cons_cons, Bool.and_eq_true]
    refine ⟨?_, h⟩
    simp [hc]

theorem noDoubleHyphen_dropWhile {p : Char → Bool} {l : List Char}
    (h : noDoubleHyphen l = true) : noDoubleHyphen (l.dropWhile p) = true := by
  induction l with
  | nil => rfl
  | cons a as ih =>
    rw [List.dropWhile_cons]
    by_cases hp : p a
    · rw [if_pos hp]
      exact ih (noDoubleHyphen_tail h)
    · rw [if_neg hp]
      exact h

theorem noDoubleHyphen_dropTrailingIf {p : Char → Bool} {l : List Char}
    (h : noDoubleHyphen l = true) :
    noDoubleHyphen (dropTrailingIf p l) = true := by
  induction l with
  | nil => rfl
  | cons a as ih =>
    unfold dropTrailingIf
    cases hrec : dropTrailingIf p as with
    | nil =>
      by_cases hp : p a <;> simp [hp, noDoubleHyphen]
    | cons r rs =>
      cases as with
      | nil => simp [dropTrailingIf] at hrec
      | cons b bs =>
        have hhead : r = b := by
          have h1 : dropTrailingIf p (b :: bs) ≠ [] := by rw [hrec]; simp
          have h2 := head?_dropTrailingIf h1
          rw [hrec] at h2
          simpa using h2
        subst hhead
        have htl : noDoubleHyphen (r :: rs) = true := by
          rw [← hrec]
          exact ih (noDoubleHyphen_tail h)
        rw [noDoubleHyphen_cons_cons, Bool.and_eq_true]
        refine ⟨?_, htl⟩
        rw [noDoubleHyphen_cons_cons, Bool.and_eq_true] at h
        exact h.1

theorem collapseSeps_cons_of_not_sep {d : Char} (hd : sepChar d = false)
    (rest : List Char) :
    collapseSeps (d :: rest) = d :: collapseSeps rest := by
  cases rest with
  | nil => simp [collapseSeps, hd]
  | cons e rs => simp [collapseSeps, hd]

theorem mem_collapseSeps {l : List Char} {c : Char} (h : c ∈ collapseSeps l) :
    c = '-' ∨ (c ∈ l ∧ sepChar c = false) := by
  induction l using collapseSeps.induct with
  | case1 => simp [collapseSeps] at h
  | case2 a ha =>
    simp [collapseSeps, ha] at h
    left; exact h
  | case3 a ha =>
    rw [Bool.not_eq_true] at ha
    simp [collapseSeps, ha] at h
    right
    exact ⟨by simp [h], by rw [h]; exact ha⟩
  | case4 a b rest hab ih =>
    rw [collapseSeps, if_pos hab] at h
    rcases ih h with hc | ⟨hm, hs⟩
    · left; exact hc
    · right; exact ⟨List.mem_cons_of_mem _ hm, hs⟩
  | case5 a b rest hab ih =>
    rw [collapseSeps, if_neg hab] at h
    rcases List.mem_cons.1 h with rfl | h2
    · by_cases hs : sepChar a
      · left; simp [hs]
      · right
        rw [Bool.not_eq_true] at hs
        simp only [hs, if_neg]
        constructor
        · simp
        · exact hs
    · rcases ih h2 with hc | ⟨hm, hs⟩
      · left; exact hc
      · right; exact ⟨List.mem_cons_of_mem _ hm, hs⟩

theorem noDoubleHyphen_collapseSeps (l : List Char) :
    noDoubleHyphen (collapseSeps l) = true := by
  induction l using collapseSeps.induct with
  | case1 => rfl
  | case2 a ha => simp [collapseSeps, ha, noDoubleHyphen]
  | case3 a ha =>
    rw [Bool.not_eq_true] at ha
    simp [collapseSeps, ha, noDoubleHyphen]
  | case4 a b rest hab ih =>
    rw [collapseSeps, if_pos hab]
    exact ih
  | case5 a b rest hab ih =>
    rw [collapseSeps, if_neg hab]
    by_cases hsa : sepChar a
    · have hsb : sepChar b = false := by
        cases hb : sepChar b
        · rfl
        · exact absurd (by rw [Bool.and_eq_true]; exact ⟨hsa, hb⟩) hab
      rw [if_pos hsa, collapseSeps_cons_of_not_sep hsb]
      rw [noDoubleHyphen_cons_cons, Bool.and_eq_true]
      constructor
      · simp [ne_hyphen_of_not_sep hsb]
      · rw [← collapseSeps_cons_of_not_sep hsb]
        exact ih
    · rw [Bool.not_eq_true] at hsa
      rw [if_neg (by simp [hsa])]
      exact noDoubleHyphen_cons_of_ne (ne_hyphen_of_not_sep hsa) ih

/-! ## The characters, ends and hyphen spacing of `slugCore` output -/

theorem slugCore_chars {t : List Char} {c : Char} (h : c ∈ slugCore t) :
    lowerAlnum c = true ∨ c = '-' := by
  unfold slugCore stripHyphens at h
  have h1 : c ∈ collapseSeps ((trimWs (t.map jsToLower)).filter allowedChar) :=
    mem_of_mem_dropWhile (mem_of_mem_dropTrailingIf h)
  rcases mem_collapseSeps h1 with hc | ⟨hm, hsep⟩
  · right; exact hc
  · left
    have hall : allowedChar c = true := List.of_mem_filter hm
    have hm2 : c ∈ trimWs (t.map jsToLower) := List.mem_of_mem_filter hm
    have hm3 : c ∈ t.map jsToLower := by
      unfold trimWs at hm2
      exact mem_of_mem_dropWhile (mem_of_mem_dropTrailingIf hm2)
    obtain ⟨a, _, rfl⟩ := List.mem_map.1 hm3
    exact lowerAlnum_of_image a hall hsep

theorem slugCore_head (t : List Char) : (slugCore t).head? ≠ some '-' := by
  intro h
  unfold slugCore stripHyphens at h
  have hne : dropTrailingIf (fun c => c == '-')
      ((collapseSeps ((trimWs (t.map jsToLower)).filter allowedChar)).dropWhile
        (fun c => c == '-')) ≠ [] := by
    intro hnil
    rw [hnil] at h
    simp at h
  rw [head?_dropTrailingIf hne] at h
  have := head?_dropWhile_not h
  simp at this

theorem slugCore_last (t : List Char) : (slugCore t).getLast? ≠ some '-' := by
  intro h
  unfold slugCore stripHyphens at h
  have := getLast?_dropTrailingIf_not h
  simp at this

theorem noDoubleHyphen_slugCore (t : List Char) :
    noDoubleHyphen (slugCore t) = true := by
  unfold slugCore stripHyphens
  exact noDoubleHyphen_dropTrailingIf
    (noDoubleHyphen_dropWhile (noDoubleHyphen_collapseSeps _))

theorem validSlugL_slugCore (t : List Char) : validSlugL (slugCore t) = true := by
  unfold validSlugL
  simp only [Bool.and_eq_true, List.all_eq_true, Bool.or_eq_true,
    Bool.not_eq_true', beq_eq_false_iff_ne, ne_eq]
  refine ⟨⟨⟨?_, noDoubleHyphen_slugCore t⟩, ?_⟩, ?_⟩
  · intro c hc
    rcases slugCore_chars hc with h | h
    · left; exact h
    · right; simp [h]
  · simpa using slugCore_head t
  · simpa using slugCore_last t

theorem validSlugL_generateSlugL_nil (t : List Char) :
    validSlugL (generateSlugL [] [] t) = true := by
  unfold generateSlugL
  by_cases h : t = []
  · rw [if_pos h]; rfl
  · rw [if_neg h]
    simp only [if_pos rfl]
    exact validSlugL_slugCore t

/-! ## Fixpoint lemmas: a well-formed slug passes `slugCore` unchanged -/

theorem map_jsToLower_fix {l : List Char}
    (h : ∀ c ∈ l, lowerAlnum c = true ∨ c = '-') : l.map jsToLower = l := by
  induction l with
  | nil => rfl
  | cons a as ih =>
    rw [List.map_cons, jsToLower_fix (h a (List.mem_cons_self _ _)),
      ih (fun c hc => h c (List.mem_cons_of_mem _ hc))]

theorem trimWs_fix {l : List Char}
    (h : ∀ c ∈ l, lowerAlnum c = true ∨ c = '-') : trimWs l = l := by
  have hns : ∀ c ∈ l, jsSpace c = false := by
    intro c hc
    rcases h c hc with h1 | rfl
    · exact lowerAlnum_not_space h1
    · decide
  unfold trimWs
  rw [dropWhile_eq_self_of_head
    (fun c hc => hns c (by cases l with
      | nil => simp at hc
      | cons a as => simp at hc; simp [hc])),
    dropTrailingIf_eq_self_of_all hns]

theorem filter_allowed_fix {l : List Char}
    (h : ∀ c ∈ l, lowerAlnum c = true ∨ c = '-') : l.filter allowedChar = l := by
  rw [List.filter_eq_self]
  intro c hc
  rcases h c hc with h1 | rfl
  · exact lowerAlnum_allowed h1
  · decide

theorem collapseSeps_fix {l : List Char}
    (h : ∀ c ∈ l, lowerAlnum c = true ∨ c = '-')
    (hnd : noDoubleHyphen l = true) : collapseSeps l = l := by
  induction l using collapseSeps.induct with
  | case1 => rfl
  | case2 a ha =>
    have : a = '-' := by
      rcases h a (List.mem_singleton_self a) with h1 | h1
      · exact absurd ha (by simp [lowerAlnum_not_sep h1])
      · exact h1
    rw [collapseSeps, if_pos ha, this]
  | case3 a ha =>
    rw [Bool.not_eq_true] at ha
    simp [collapseSeps, ha]
  | case4 a b rest hab ih =>
    exfalso
    rw [Bool.and_eq_true] at hab
    have ha : a = '-' := by
      rcases h a (List.mem_cons_self _ _) with h1 | h1
      · exact absurd hab.1 (by simp [lowerAlnum_not_sep h1])
      · exact h1
    have hb : b = '-' := by
      rcases h b (List.mem_cons_of_mem _ (List.mem_cons_self _ _)) with h1 | h1
      · exact absurd hab.2 (by simp [lowerAlnum_not_sep h1])
      · exact h1
    rw [noDoubleHyphen_cons_cons, Bool.and_eq_true] at hnd
    have := hnd.1
    rw [ha, hb] at this
    simp at this
  | case5 a b rest hab ih =>
    rw [collapseSeps, if_neg hab]
    have htail : collapseSeps (b :: rest) = b :: rest :=
      ih (fun c hc => h c (List.mem_cons_of_mem _ hc)) (noDoubleHyphen_tail hnd)
    rw [htail]
    by_cases hsa : sepChar a
    · have ha : a = '-' := by
        rcases h a (List.mem_cons_self _ _) with h1 | h1
        · exact absurd hsa (by simp [lowerAlnum_not_sep h1])
        · exact h1
      rw [if_pos hsa, ha]
    · rw [if_neg hsa]

theorem stripHyphens_fix {l : List Char}
    (hh : l.head? ≠ some '-') (hl : l.getLast? ≠ some '-') :
    stripHyphens l = l := by
  unfold stripHyphens
  rw [dropWhile_eq_self_of_head (fun c hc => by
    simp only [beq_eq_false_iff_ne, ne_eq]
    intro hceq
    exact hh (by rw [hc, hceq]))]
  apply dropTrailingIf_eq_self_of_getLast
  intro c hc
  simp only [beq_eq_false_iff_ne, ne_eq]
  intro hceq
  exact hl (by rw [hc, hceq])

/-- The whole normalization pipeline fixes a well-formed slug. -/
theorem slugCore_fix {l : List Char} (h : validSlugL l = true) :
    slugCore l = l := by
  unfold validSlugL at h
  simp only [Bool.and_eq_true, List.all_eq_true, Bool.or_eq_true,
    Bool.not_eq_true', beq_eq_false_iff_ne, ne_eq] at h
  obtain ⟨⟨⟨hchars, hnd⟩, hh⟩, hl⟩ := h
  have hchars' : ∀ c ∈ l, lowerAlnum c = true ∨ c = '-' := by
    intro c hc
    rcases hchars c hc with h1 | h1
    · left; exact h1
    · right; exact beq_iff_eq.mp h1
  unfold slugCore
  rw [map_jsToLower_fix hchars', trimWs_fix hchars', filter_allowed_fix hchars',
    collapseSeps_fix hchars' hnd, stripHyphens_fix hh hl]

/-- With no prefix and no suffix, `generateSlug` fixes a well-formed
slug. -/
theorem generateSlugL_nil_of_valid {s : List Char} (hv : validSlugL s = true) :
    generateSlugL [] [] s = s := by
  by_cases hs : s = []
  · rw [hs]; rfl
  · unfold generateSlugL
    rw [if_neg hs]
    simp only [if_pos rfl]
    exact slugCore_fix hv

/-- With no prefix and no suffix configured, `generateSlug` is
idempotent (list level). -/
theorem generateSlugL_nil_idem (t : List Char) :
    generateSlugL [] [] (generateSlugL [] [] t) = generateSlugL [] [] t :=
  generateSlugL_nil_of_valid (validSlugL_generateSlugL_nil t)

theorem mem_catBy_of_mem {f : α → List β} {l : List α} {a : α} {b : β}
    (ha : a ∈ l) (hb : b ∈ f a) : b ∈ catBy f l := by
  induction l with
  | nil => simp at ha
  | cons x xs ih =>
    rcases List.mem_cons.1 ha with rfl | h2
    · exact List.mem_append_left _ hb
    · exact List.mem_append_right _ (ih h2)

theorem length_catBy {f : α → List β} (l : List α) :
    (catBy f l).length = sumBy (fun a => (f a).length) l := by
  induction l with
  | nil => rfl
  | cons x xs ih => simp [catBy, sumBy, ih]

theorem catBy_congr {f g : α → List β} {l : List α}
    (h : ∀ a ∈ l, f a = g a) : catBy f l = catBy g l := by
  induction l with
  | nil => rfl
  | cons x xs ih =>
    simp only [catBy]
    rw [h x (List.mem_cons_self _ _), ih (fun a ha => h a (List.mem_cons_of_mem _ ha))]

theorem sumBy_congr {f g : α → Nat} {l : List α}
    (h : ∀ a ∈ l, f a = g a) : sumBy f l = sumBy g l := by
  induction l with
  | nil => rfl
  | cons x xs ih =>
    simp only [sumBy]
    rw [h x (List.mem_cons_self _ _), ih (fun a ha => h a (List.mem_cons_of_mem _ ha))]

theorem sumBy_add_sumBy {f g : α → Nat} (l : List α) :
    sumBy f l + sumBy g l = sumBy (fun a => f a + g a) l := by
  induction l with
  | nil => rfl
  | cons x xs ih => simp only [sumBy]; omega

theorem sumBy_one (l : List α) : sumBy (fun _ => 1) l = l.length := by
  induction l with
  | nil => rfl
  | cons x xs ih => simp only [sumBy, ih, List.length_cons]; omega

theorem catBy_eq_nil {f : α → List β} {l : List α}
    (h : ∀ a ∈ l, f a = []) : catBy f l = [] := by
  induction l with
  | nil => rfl
  | cons x xs ih =>
    simp only [catBy]
    rw [h x (List.mem_cons_self _ _), ih (fun a ha => h a (List.mem_cons_of_mem _ ha))]
    rfl

/-- One loop iteration expressed through the per-document
projections. -/
theorem stepDoc_eq (c : Config) (acc : RunState) (d : DocCase) :
    stepDoc c acc d =
      ⟨acc.converted + docConv c d, acc.errors ++ docErr c d,
       acc.slugsGenerated ++ docSlugs c d, acc.patches ++ docPatches c d,
       acc.progress⟩ := by
  unfold stepDoc docConv docErr docSlugs docPatches
  cases hp : processDoc c d with
  | mk o ps =>
    cases o <;> simp [hp]

/-- The inner loop is a per-document accumulation: its effect on the
report fields is the concatenation (resp. sum) of per-document
contributions, and it never touches the progress log. -/
theorem foldl_stepDoc (c : Config) :
    ∀ (docs : List DocCase) (acc : RunState),
    docs.foldl (stepDoc c) acc =
      ⟨acc.converted + sumBy (docConv c) docs,
       acc.errors ++ catBy (docErr c) docs,
       acc.slugsGenerated ++ catBy (docSlugs c) docs,
       acc.patches ++ catBy (docPatches c) docs,
       acc.progress⟩
  | [], acc => by simp [sumBy, catBy]
  | d :: ds, acc => by
    rw [List.foldl_cons, stepDoc_eq, foldl_stepDoc c ds]
    simp [sumBy, catBy, Nat.add_assoc]

theorem foldl_stepDoc_progress_set (c : Config) (docs : List DocCase)
    (acc : RunState) (p : List (Nat × Nat)) :
    docs.foldl (stepDoc c) { acc with progress := p } =
      { docs.foldl (stepDoc c) acc with progress := p } := by
  rw [foldl_stepDoc, foldl_stepDoc]

/-- The chunked outer loop affects the report fields exactly as the
plain fold over the concatenation of the chunks. -/
theorem runChunks_fields (c : Config) (t : Nat) :
    ∀ (chs : List (List DocCase)) (acc : RunState),
    (runChunks c t chs acc).converted =
        ((catBy id chs).foldl (stepDoc c) acc).converted ∧
    (runChunks c t chs acc).errors =
        ((catBy id chs).foldl (stepDoc c) acc).errors ∧
    (runChunks c t chs acc).slugsGenerated =
        ((catBy id chs).foldl (stepDoc c) acc).slugsGenerated ∧
    (runChunks c t chs acc).patches =
        ((catBy id chs).foldl (stepDoc c) acc).patches
  | [], acc => by simp [runChunks, catBy]
  | ch :: rest, acc => by
    obtain ⟨h1, h2, h3, h4⟩ := runChunks_fields c t rest
      { ch.foldl (stepDoc c) acc with
        progress := (ch.foldl (stepDoc c) acc).progress ++
          [((ch.foldl (stepDoc c) acc).converted, t)] }
    simp only [runChunks]
    rw [h1, h2, h3, h4, foldl_stepDoc_progress_set]
    simp only [catBy, id, List.foldl_append]
    exact ⟨trivial, trivial, trivial, trivial⟩

theorem chunksBy_nil (n : Nat) : chunksBy n ([] : List α) = [] := by
  simp [chunksBy]

theorem chunksBy_pos {n : Nat} (hn : n ≠ 0) {l : List α} (hl : l ≠ []) :
    chunksBy n l = l.take n :: chunksBy n (l.drop n) := by
  cases l with
  | nil => exact absurd rfl hl
  | cons a as => rw [chunksBy]; simp [hn]

/-- Joining the chunks gives back the candidate list. -/
theorem chunksBy_join (n : Nat) : ∀ (l : List α), catBy id (chunksBy n l) = l
  | [] => by simp [chunksBy, catBy]
  | a :: as => by
    rw [chunksBy]
    by_cases hn : n = 0
    · simp [hn, catBy]
    · rw [if_neg hn]
      have hlt : ((a :: as).drop n).length < (a :: as).length := by
        rw [List.length_drop]
        simp only [List.length_cons]
        omega
      rw [catBy, chunksBy_join n ((a :: as).drop n), id]
      exact List.take_append_drop n (a :: as)
termination_by l => l.length

/-- The final report of `convertToSlugs`, field by field, as
per-document contributions. -/
theorem convertToSlugs_fields (c : Config) (docs : List DocCase) :
    (convertToSlugs c docs).converted = sumBy (docConv c) docs ∧
    (convertToSlugs c docs).errors = catBy (docErr c) docs ∧
    (convertToSlugs c docs).slugsGenerated = catBy (docSlugs c) docs ∧
    (convertToSlugs c docs).patches = catBy (docPatches c) docs := by
  unfold convertToSlugs
  obtain ⟨h1, h2, h3, h4⟩ :=
    runChunks_fields c docs.length (chunksBy c.batchSize docs) initState
  rw [chunksBy_join] at h1 h2 h3 h4
  rw [h1, h2, h3, h4, foldl_stepDoc]
  simp [initState]

/-! Per-document outcome accounting. -/

/-- Each attempted candidate is accounted exactly once: either it
increments `converted` or it contributes exactly one error entry. -/
theorem docConv_add_docErr (c : Config) (d : DocCase) :
    docConv c d + (docErr c d).length = 1 := by
  unfold docConv docErr
  cases hp : (processDoc c d).1 <;> simp

/-- A converted document contributes exactly one generated slug, a
failed one none. -/
theorem docConv_eq_docSlugs_length (c : Config) (d : DocCase) :
    docConv c d = (docSlugs c d).length := by
  unfold docConv docSlugs
  cases hp : (processDoc c d).1 <;> simp

/-! Dry-run behaviour of one document. -/

/-- In dry-run mode a document never issues a patch commit. -/
theorem docPatches_dryRun {c : Config} (h : c.dryRun = true) (d : DocCase) :
    docPatches c d = [] := by
  unfold docPatches processDoc
  by_cases hs : (generateSlug c.slugPre c.slugSuf
      (firstTruthy [d.source, d.title, d.name] d.id) == "") = true
  · simp [hs]
  · cases hpr : d.probe with
    | error m => simp [hs, hpr]
    | ok coll => simp [hs, hpr, h]

/-- When the store would accept the patch, the outcome of a document
does not depend on the dry-run flag (only the prefix and suffix
configuration matter for the outcome). -/
theorem processDoc_fst_patch_ok {c c' : Config} {d : DocCase}
    (hpre : c.slugPre = c'.slugPre) (hsuf : c.slugSuf = c'.slugSuf)
    (hp : d.patchRes = Except.ok ()) :
    (processDoc c d).1 = (processDoc c' d).1 := by
  unfold processDoc
  rw [hpre, hsuf]
  by_cases hs : (generateSlug c'.slugPre c'.slugSuf
      (firstTruthy [d.source, d.title, d.name] d.id) == "") = true
  · simp [hs]
  · cases hpr : d.probe with
    | error m => simp [hs, hpr]
    | ok coll =>
      simp only [hs, hpr, hp]
      by_cases hd : c.dryRun = true <;> by_cases hd' : c'.dryRun = true <;>
        simp [hd, hd']

theorem foldl_stepDoc_prog (c : Config) (docs : List DocCase) (acc : RunState) :
    (docs.foldl (stepDoc c) acc).progress = acc.progress := by
  rw [foldl_stepDoc]

/-- The progress log produced by a three-chunk run. -/
theorem runChunks_three (c : Config) (t : Nat) (A B C : List DocCase) :
    (runChunks c t [A, B, C] initState).progress =
      [((A.foldl (stepDoc c) initState).converted, t),
       (((A ++ B).foldl (stepDoc c) initState).converted, t),
       (((A ++ B ++ C).foldl (stepDoc c) initState).converted, t)] := by
  simp only [runChunks, List.foldl_append]
  simp only [foldl_stepDoc_progress_set]
  simp [foldl_stepDoc_prog, initState]

/-! ## Helper lemmas: scanner and uniqueness probe -/

theorem take_add_split (m n : Nat) : ∀ (l : List α),
    l.take (m + n) = l.take m ++ (l.drop m).take n := by
  induction m with
  | zero => simp
  | succ k ih =>
    intro l
    cases l with
    | nil => simp
    | cons a as =>
      rw [Nat.succ_add, List.take_succ_cons, List.drop_succ_cons,
        List.take_succ_cons, List.cons_append, ih as]

/-- The GROQ condition `<slugField>.current == $slug` holds exactly
when the slug attribute's current value is the candidate slug. -/
theorem slugCurEq_iff (e : SDoc) (slug : String) :
    slugCurEq e slug = true ↔ slugCurrent e = some slug := by
  unfold slugCurEq slugCurrent
  cases h : e.slugAttr with
  | none => simp
  | some o =>
    cases o with
    | none => simp
    | some s => simp

/-- The probe query finds a document exactly when the store holds
another document of the same type with the candidate slug. -/
theorem probeCollision_isSome_iff (store : List SDoc) (dT dI slug : String) :
    (probeCollision store dT dI slug).isSome = true ↔
      ∃ e ∈ store, e.type = dT ∧ slugCurrent e = some slug ∧ e.id ≠ dI := by
  unfold probeCollision
  constructor
  · intro h
    cases hf : store.filter
        (fun e => e.type == dT && slugCurEq e slug && e.id != dI) with
    | nil => rw [hf] at h; simp at h
    | cons e es =>
      have he : e ∈ store.filter
          (fun e => e.type == dT && slugCurEq e slug && e.id != dI) := by
        rw [hf]; exact List.mem_cons_self _ _
      obtain ⟨hm, hq⟩ := List.mem_filter.1 he
      simp only [Bool.and_eq_true, beq_iff_eq, bne_iff_ne, ne_eq] at hq
      exact ⟨e, hm, hq.1.1, (slugCurEq_iff e slug).1 hq.1.2, hq.2⟩
  · intro ⟨e, he, ht, hs, hi⟩
    have hq : (fun e => e.type == dT && slugCurEq e slug && e.id != dI) e
        = true := by
      simp only [Bool.and_eq_true, beq_iff_eq, bne_iff_ne, ne_eq]
      exact ⟨⟨ht, (slugCurEq_iff e slug).2 hs⟩, hi⟩
    have hmem : e ∈ store.filter
        (fun e => e.type == dT && slugCurEq e slug && e.id != dI) :=
      List.mem_filter.2 ⟨he, hq⟩
    cases hf : store.filter
        (fun e => e.type == dT && slugCurEq e slug && e.id != dI) with
    | nil => rw [hf] at hmem; simp at hmem
    | cons x xs => rfl

/-- The code-side selection predicate restated as the claim's
conjunction: a scanned document is selected exactly when it has
non-empty source text and either the replace-existing flag is set or
its slug attribute's current value is absent/empty. -/
theorem needsConversion_iff (cfg : ScanConfig) (d : SDoc) :
    needsConversion cfg d = true ↔
      hasSourceText d = true ∧
        (cfg.replaceExisting = true ∨ hasNonEmptySlug d = false) := by
  unfold needsConversion hasSourceText hasNonEmptySlug
  cases hsa : d.slugAttr with
  | none => cases hre : cfg.replaceExisting <;> simp [hre]
  | some o =>
    cases o with
    | none => cases hre : cfg.replaceExisting <;> simp [hre]
    | some s => cases hre : cfg.replaceExisting <;> simp [hre]

/-! ## The claims -/

/-- Claim C1, counterexample: the prefix and suffix are attached
verbatim, so for the configured prefix "A" and text "x" the generator
returns "A-x", which contains an uppercase letter -- the output is
not restricted to lowercase letters, digits and hyphens for every
configured prefix and suffix. -/
theorem C1_counterexample :
    generateSlug "A" "" "x" = "A-x" ∧
      validSlug (generateSlug "A" "" "x") = false := by decide

/-- Claim C1 (amended): for every input text, with no prefix and no
suffix configured, the string returned by the slug generator contains
only lowercase letters, digits, and single (non-consecutive) hyphens,
and has no leading or trailing hyphen. -/
theorem C1_wellFormed (t : String) : validSlug (generateSlug "" "" t) = true :=
  validSlugL_generateSlugL_nil t.data

/-- Claim C2: a scanned document is selected as a conversion
candidate if and only if it has non-empty source text (configured
source field, title, or name) and either the replace-existing flag is
true or its slug attribute's current value is absent/empty. -/
theorem C2_selection (cfg : ScanConfig) (store : List SDoc)
    (rawFetch : String → List SDoc) (d : SDoc) :
    d ∈ scanForDocuments cfg store rawFetch ↔
      d ∈ scanFetch cfg store rawFetch ∧ hasSourceText d = true ∧
        (cfg.replaceExisting = true ∨ hasNonEmptySlug d = false) := by
  unfold scanForDocuments
  rw [List.mem_filter, needsConversion_iff]

/-- Claim C3: a per-document exception during the probe or the patch
is recorded as a Failed outcome carrying the error message, and the
run continues -- every candidate still contributes exactly one
outcome (success or error), so no per-document exception aborts the
run. -/
theorem C3_perDocFailure (c : Config) (docs : List DocCase) (d : DocCase)
    (m : String) (hd : d ∈ docs) (hf : (processDoc c d).1 = .failed m) :
    failMsg d.id m ∈ (convertToSlugs c docs).errors ∧
      (convertToSlugs c docs).converted +
        (convertToSlugs c docs).errors.length = docs.length := by
  obtain ⟨h1, h2, _, _⟩ := convertToSlugs_fields c docs
  constructor
  · rw [h2]
    apply mem_catBy_of_mem hd
    unfold docErr
    rw [hf]
    exact List.mem_singleton_self _
  · rw [h1, h2, length_catBy, sumBy_add_sumBy]
    rw [sumBy_congr (fun d _ => docConv_add_docErr c d)]
    exact sumBy_one docs

/-- Witness for C3 at a concrete two-document run whose second
document's probe throws "boom". -/
theorem C3_witness :
    failMsg "b" "boom" ∈ (convertToSlugs cwWet [dOkDoc, dProbeFail]).errors ∧
      (convertToSlugs cwWet [dOkDoc, dProbeFail]).converted +
        (convertToSlugs cwWet [dOkDoc, dProbeFail]).errors.length =
          [dOkDoc, dProbeFail].length :=
  C3_perDocFailure cwWet [dOkDoc, dProbeFail] dProbeFail "boom"
    (by decide) (by decide)

/-- Claim C5: for a non-empty candidate slug, the uniqueness probe
finds a store document of the same type, with a different identifier,
whose slug attribute's current value equals the candidate; if one
exists the final slug is the candidate followed by a hyphen and the
time token, otherwise the final slug is the candidate unchanged. -/
theorem C5_probe (store : List SDoc) (dT dI slug : String) (now : Nat)
    (_hs : slug ≠ "") :
    ((∃ e ∈ store, e.type = dT ∧ slugCurrent e = some slug ∧ e.id ≠ dI) →
        finalSlugFor store dT dI slug now = slug ++ "-" ++ toString now) ∧
    ((¬ ∃ e ∈ store, e.type = dT ∧ slugCurrent e = some slug ∧ e.id ≠ dI) →
        finalSlugFor store dT dI slug now = slug) := by
  constructor
  · intro hex
    unfold finalSlugFor
    cases hp : probeCollision store dT dI slug with
    | some e => rfl
    | none =>
      exfalso
      have h2 := (probeCollision_isSome_iff store dT dI slug).2 hex
      rw [hp] at h2
      simp at h2
  · intro hnex
    unfold finalSlugFor
    cases hp : probeCollision store dT dI slug with
    | some e =>
      exfalso
      apply hnex
      apply (probeCollision_isSome_iff store dT dI slug).1
      rw [hp]
      rfl
    | none => rfl

/-- Witness for C5: a store holding slug "post" on another document
forces the time token; an empty store leaves the candidate
unchanged. -/
theorem C5_witness :
    finalSlugFor [sdColl] "post" "me" "post" 7 = "post" ++ "-" ++ toString 7 ∧
      finalSlugFor [] "post" "me" "post" 7 = "post" := by
  constructor
  · refine (C5_probe [sdColl] "post" "me" "post" 7 (by decide)).1 ?_
    exact ⟨sdColl, List.mem_singleton_self _, rfl, rfl, by decide⟩
  · refine (C5_probe [] "post" "me" "post" 7 (by decide)).2 ?_
    rintro ⟨e, he, _⟩
    simp at he

/-- Claim C6, counterexample: with the raw passthrough query active
the scan uses the operator's query verbatim with no result cap, so a
store answering one document exceeds the configured cap of 0 -- the
bound does not hold for every scan configuration. -/
theorem C6_counterexample :
    ¬((scanFetch cfg6cust [] (fun _ => [sd0])).length ≤
        cfg6cust.maxDocuments) := by decide

/-- Claim C6 (amended): whenever the structured filter query is used
(the custom-query passthrough is not active), the number of documents
retrieved by the scan is bounded by the configured result cap. -/
theorem C6_capped (cfg : ScanConfig) (store : List SDoc)
    (rawFetch : String → List SDoc)
    (h : (cfg.useCustomQuery && !(cfg.customGroqQuery == "")) = false) :
    (scanFetch cfg store rawFetch).length ≤ cfg.maxDocuments := by
  unfold scanFetch
  rw [if_neg (by simp [h])]
  unfold structuredScan
  simp only [List.length_take]
  omega

/-- Witness for C6 at a concrete structured scan with cap 3. -/
theorem C6_witness :
    (scanFetch cfg6struct [sd0] (fun _ => [])).length ≤
      cfg6struct.maxDocuments :=
  C6_capped cfg6struct [sd0] (fun _ => []) (by decide)

/-- Claim C7: over 25 candidates with batch size 10 the pipeline
emits exactly three progress notifications -- after document 10,
document 20 and document 25, in that order -- each carrying the
cumulative converted count so far and the total candidate count 25. -/
theorem C7_progress (c : Config) (docs : List DocCase)
    (hb : c.batchSize = 10) (hl : docs.length = 25) :
    (convertToSlugs c docs).progress =
      [(((docs.take 10).foldl (stepDoc c) initState).converted, 25),
       (((docs.take 20).foldl (stepDoc c) initState).converted, 25),
       ((docs.foldl (stepDoc c) initState).converted, 25)] := by
  unfold convertToSlugs
  rw [hb, hl]
  have h1 : docs ≠ [] := by intro h; rw [h] at hl; simp at hl
  have hd10 : (docs.drop 10).length = 15 := by rw [List.length_drop, hl]
  have h2 : docs.drop 10 ≠ [] := by intro h; rw [h] at hd10; simp at hd10
  have hd20 : ((docs.drop 10).drop 10).length = 5 := by
    rw [List.length_drop, hd10]
  have h3 : (docs.drop 10).drop 10 ≠ [] := by
    intro h; rw [h] at hd20; simp at hd20
  rw [chunksBy_pos (by decide) h1, chunksBy_pos (by decide) h2,
    chunksBy_pos (by decide) h3]
  have h4 : ((docs.drop 10).drop 10).drop 10 = [] :=
    List.drop_eq_nil_of_le (by rw [hd20]; omega)
  rw [h4, chunksBy_nil]
  have h5 : ((docs.drop 10).drop 10).take 10 = (docs.drop 10).drop 10 :=
    List.take_of_length_le (by rw [hd20]; omega)
  rw [h5, runChunks_three]
  have hA : docs.take 10 ++ (docs.drop 10).take 10 = docs.take 20 := by
    rw [show (20 : Nat) = 10 + 10 from rfl, take_add_split]
  have hB : docs.take 20 ++ (docs.drop 10).drop 10 = docs := by
    rw [List.drop_drop, show (10 + 10 : Nat) = 20 from rfl]
    exact List.take_append_drop 20 docs
  rw [hA, hB]

/-- Witness for C7 on a concrete 25-document dry run in which every
document converts: notifications read 10/25, 20/25, 25/25. -/
theorem C7_witness :
    (convertToSlugs cwDry (List.replicate 25 dOkDoc)).progress =
      [(10, 25), (20, 25), (25, 25)] := by
  rw [C7_progress cwDry (List.replicate 25 dOkDoc) rfl (by decide)]
  decide

/-- Claim C8, counterexample: with the configured prefix "blog",
re-running the generator on its own output prepends the prefix again
("blog-blog-title"), so generate is not idempotent for every
prefix/suffix configuration. -/
theorem C8_counterexample :
    generateSlug "blog" "" (generateSlug "blog" "" "title") ≠
      generateSlug "blog" "" "title" := by decide

/-- Claim C8 (amended): with no prefix and no suffix configured,
applying the slug generator to its own output yields that output
unchanged. -/
theorem C8_idempotent (t : String) :
    generateSlug "" "" (generateSlug "" "" t) = generateSlug "" "" t :=
  congrArg String.mk (generateSlugL_nil_idem t.data)

/-- Claim C9: in every report produced by the pipeline, the converted
count equals the length of the slugsGenerated sequence -- a slug is
appended exactly when the counter is incremented. -/
theorem C9_convertedCount (c : Config) (docs : List DocCase) :
    (convertToSlugs c docs).converted =
      (convertToSlugs c docs).slugsGenerated.length := by
  obtain ⟨h1, _, h3, _⟩ := convertToSlugs_fields c docs
  rw [h1, h3, length_catBy]
  exact sumBy_congr (fun d _ => docConv_eq_docSlugs_length c d)

/-- Claim C10: with the use-custom-query flag set but the custom
query text empty, the scanner does not run a raw passthrough query --
it falls back to the structured filter query, and the result is
independent of what the raw query would return. -/
theorem C10_fallback (cfg : ScanConfig) (store : List SDoc)
    (raw raw2 : String → List SDoc)
    (_hu : cfg.useCustomQuery = true) (hq : cfg.customGroqQuery = "") :
    scanFetch cfg store raw = structuredScan cfg store ∧
      scanFetch cfg store raw = scanFetch cfg store raw2 := by
  unfold scanFetch
  rw [hq]
  simp

/-- Witness for C10 at a concrete configuration with an empty custom
query and two raw oracles that disagree. -/
theorem C10_witness :
    scanFetch cfg10e [sd0] (fun _ => []) = structuredScan cfg10e [sd0] ∧
      scanFetch cfg10e [sd0] (fun _ => []) =
        scanFetch cfg10e [sd0] (fun _ => [sd0, sd0]) :=
  C10_fallback cfg10e [sd0] (fun _ => []) (fun _ => [sd0, sd0]) rfl rfl
